import Mathlib

set_option maxHeartbeats 1600000

/-!
Verification of the AI-Developer iteration loop (`src/main.py`).

Strings are modelled as `List Char`; the whitespace and line-boundary
character classes below are CPython's exact sets.  External processes
(`subprocess.run` for the `patch` tool, the shell commands, `git`) are
modelled by an oracle value of type `ProcResult` describing how the
launched process behaved; Python exceptions are modelled with `Except`.
-/

namespace AIDev

/-- Whitespace, as recognised by Python's `str.strip()` and by the regex
class `\s` on `str`.  The two sets coincide in CPython: the characters
satisfying `str.isspace()`, namely tab through carriage return
(`\x09`-`\x0d`), the file/group/record/unit separators `\x1c`-`\x1f`,
space, next line `\x85`, no-break space `\xa0`, ogham space `U+1680`,
the typographic spaces `U+2000`-`U+200A`, line and paragraph separators
`U+2028`/`U+2029`, narrow no-break space `U+202F`, medium mathematical
space `U+205F` and ideographic space `U+3000`. -/
def isSpace (c : Char) : Bool :=
  c = ' ' || c = '\t' || c = '\n' || c = '\x0b' || c = '\x0c' || c = '\r' ||
  c = '\x1c' || c = '\x1d' || c = '\x1e' || c = '\x1f' ||
  c = '\x85' || c = '\xa0' || c = '\u1680' ||
  c = '\u2000' || c = '\u2001' || c = '\u2002' || c = '\u2003' ||
  c = '\u2004' || c = '\u2005' || c = '\u2006' || c = '\u2007' ||
  c = '\u2008' || c = '\u2009' || c = '\u200a' ||
  c = '\u2028' || c = '\u2029' || c = '\u202f' || c = '\u205f' ||
  c = '\u3000'

/-- Python `s.strip()`: remove leading and trailing whitespace. -/
def strip (s : List Char) : List Char :=
  ((s.dropWhile isSpace).reverse.dropWhile isSpace).reverse

/-- The line-boundary characters of Python's `str.splitlines()`:
`\n`, `\x0b` (vertical tab), `\x0c` (form feed), `\r`, the
file/group/record separators `\x1c`-`\x1e`, next line `\x85`, and the
line/paragraph separators `U+2028`/`U+2029`.  Every one of them is also
whitespace (`isSpace`). -/
def isLineBreak (c : Char) : Bool :=
  c = '\n' || c = '\x0b' || c = '\x0c' || c = '\r' ||
  c = '\x1c' || c = '\x1d' || c = '\x1e' || c = '\x85' ||
  c = '\u2028' || c = '\u2029'

/-- Worker for `splitlinesPy`; `acc` holds the current line reversed.
`\r\n` is the only multi-character boundary Python merges; the
single-character split below instead emits one extra empty line for
that sequence.  `parse_model_response` filters out blank lines right
after splitting, so the two readings give the same command list, and
the simpler single-character split is used. -/
def splitlinesAux : List Char → List Char → List (List Char)
  | [], acc => if acc.isEmpty then [] else [acc.reverse]
  | c :: rest, acc =>
      if isLineBreak c then acc.reverse :: splitlinesAux rest []
      else splitlinesAux rest (c :: acc)

/-- Python `s.splitlines()` (no trailing empty line for a final break). -/
def splitlinesPy (s : List Char) : List (List Char) :=
  splitlinesAux s []

/-- Index of the first occurrence of `pat` as a contiguous substring of
`s`, or `none`.  This is the search order of Python's `re.search`: start
positions are tried left to right. -/
def findSub (pat : List Char) : List Char → Option Nat
  | [] => if pat.isPrefixOf [] then some 0 else none
  | c :: rest =>
      if pat.isPrefixOf (c :: rest) then some 0
      else (findSub pat rest).map (· + 1)

/-- First occurrence of `pat` in `s` at an index `≥ start`, if any. -/
def findFrom (pat s : List Char) (start : Nat) : Option Nat :=
  (findSub pat (s.drop start)).map (· + start)

/-- Section marker `COMMIT_MESSAGE:` of the response grammar. -/
def mCOMMIT : List Char := "COMMIT_MESSAGE:".toList

/-- Section marker `DIFF:` of the response grammar. -/
def mDIFF : List Char := "DIFF:".toList

/-- Section marker `COMMANDS:` of the response grammar. -/
def mCOMMANDS : List Char := "COMMANDS:".toList

/-- The terminator `\nDIFF:` of the commit-message capture group. -/
def nlDIFF : List Char := '\n' :: mDIFF

/-- The terminator `\nCOMMANDS:` of the diff capture group. -/
def nlCOMMANDS : List Char := '\n' :: mCOMMANDS

/-- Value of a capture of the Python regex `X:\s*([\s\S]*?)\nEND`
(followed by `.strip()`) on the suffix `t` that follows the first
occurrence of the start marker `X:`.  Backtracking semantics of the
pattern: the greedy `\s*` first consumes the maximal whitespace run of
length `w`; the lazy group then stops at the earliest occurrence of the
terminator at an index `≥ w`.  If there is none, `\s*` gives back one
character; the only possible occurrence of the terminator below `w` then
starts at `w - 1` (its remaining characters are not whitespace), and the
group captures the empty string, which strips to the empty string — the
same value the `none` branch returns.  If the terminator does not occur
at all, no start position can match and the field keeps its `''`
default, again the `none` branch. -/
def extractField (t : List Char) (endMarker : List Char) : List Char :=
  let w := (t.takeWhile isSpace).length
  match findFrom endMarker t w with
  | some p => strip ((t.drop w).take (p - w))
  | none => []

/-- `parse_model_response` of `src/main.py`: extract the commit message
(`COMMIT_MESSAGE:\s*([\s\S]*?)\nDIFF:`), the diff
(`DIFF:\s*([\s\S]*?)\nCOMMANDS:`) and the command list
(`COMMANDS:\s*([\s\S]*)`, split into lines, each stripped, blank lines
dropped).  A `re.search` match must begin at an occurrence of the start
literal, and an occurrence of the terminator after a later start is also
one after the first start, so the first occurrence of the start literal
decides each field There are no other effects: the function is total and
raises nothing. -/
def parse_model_response (response : List Char) :
    List Char × List Char × List (List Char) :=
  let commit_msg :=
    match findSub mCOMMIT response with
    | some i => extractField (response.drop (i + mCOMMIT.length)) nlDIFF
    | none => []
  let diff_text :=
    match findSub mDIFF response with
    | some i => extractField (response.drop (i + mDIFF.length)) nlCOMMANDS
    | none => []
  let commands :=
    match findSub mCOMMANDS response with
    | some i =>
        let tail := response.drop (i + mCOMMANDS.length)
        let body := tail.drop (tail.takeWhile isSpace).length
        ((splitlinesPy body).map strip).filter (fun l => !l.isEmpty)
    | none => []
  (commit_msg, diff_text, commands)

/-- Outcome of launching one external process (`subprocess.run`):
either the process ran to completion with an exit status and captured
output, or launching it raised an exception (`OSError` etc.). -/
inductive ProcResult where
  | exited (returncode : Int) (stdout stderr : String)
  | raised (msg : String)
deriving DecidableEq

/-- `apply_patch` of `src/main.py`.  An empty or whitespace-only diff
returns `True` without launching anything (so the result does not
depend on `patchRun`).  Otherwise `subprocess.run(['patch','-p1','-u'],
…, check=True)` raises `CalledProcessError` exactly when the exit
status is non-zero, and that is the only exception the function
catches (printing the tool's stderr and returning `False`); an
exception raised by the launch itself propagates to the caller,
modelled by `Except.error`. -/
def apply_patch (patchRun : ProcResult) (diff_text : List Char) :
    Except String Bool :=
  if strip diff_text = [] then Except.ok true
  else
    match patchRun with
    | ProcResult.exited rc _ _ =>
        if rc = 0 then Except.ok true else Except.ok false
    | ProcResult.raised msg => Except.error msg

/-- One record of the JSON log written by `run_commands`: either the
three-field result of a completed command, or the `error` variant used
when the command could not be launched. -/
inductive CmdLogEntry where
  | result (command : List Char) (returncode : Int) (stdout stderr : String)
  | errored (command : List Char) (error : String)
deriving DecidableEq

/-- The `command` field present in both log-entry variants. -/
def CmdLogEntry.command : CmdLogEntry → List Char
  | CmdLogEntry.result c _ _ _ => c
  | CmdLogEntry.errored c _ => c

/-- The log built by the loop of `run_commands` in `src/main.py`.  The
input pairs each command string with the behaviour of its shell
invocation.  `subprocess.run(cmd, shell=True, capture_output=True,
text=True)` never raises for a non-zero exit status (no `check=True`),
so a completed command is always recorded with its `returncode`,
`stdout` and `stderr`; any exception is caught by the
`except Exception` clause and recorded as an `error` entry, and the
loop continues with the next command either way. -/
def run_commands_log : List (List Char × ProcResult) → List CmdLogEntry
  | [] => []
  | (cmd, ProcResult.exited rc out err) :: rest =>
      CmdLogEntry.result cmd rc out err :: run_commands_log rest
  | (cmd, ProcResult.raised msg) :: rest =>
      CmdLogEntry.errored cmd msg :: run_commands_log rest

/-- Shape of a log entry for one executed command, used to state
properties of `run_commands_log`. -/
def entryOf (e : List Char × ProcResult) : CmdLogEntry :=
  match e.2 with
  | ProcResult.exited rc out err => CmdLogEntry.result e.1 rc out err
  | ProcResult.raised msg => CmdLogEntry.errored e.1 msg

/-- One regular file visible to `gather_files`: its relative path split
into components (`path.parts`), and the result of
`path.read_text(encoding='utf-8', errors='ignore')` — `some content`
when the read succeeds (decoding is lossy and cannot fail), `none` when
the read raises (permissions, races, device files, …). -/
structure FsEntry where
  parts : List String
  readResult : Option String
deriving DecidableEq

/-- `gather_files` of `src/main.py`, over the list of regular files the
`rglob` walk yields, in walk order: skip entries with a `.git` path
component, skip entries whose read raises, record everything else as
`path ↦ content`.  Distinct files have distinct relative paths, so the
association list faithfully models the Python dict. -/
def gather_files : List FsEntry → List (List String × String)
  | [] => []
  | e :: rest =>
      if ".git" ∈ e.parts then gather_files rest
      else
        match e.readResult with
        | some content => (e.parts, content) :: gather_files rest
        | none => gather_files rest

/-- Environment of one loop iteration of `main`: the model's reply text
and the behaviour of the `patch` invocation should it happen. -/
structure IterEnv where
  reply : List Char
  patchRun : ProcResult
deriving DecidableEq

/-- How the whole process ends: fall off the loop normally, terminate
through `sys.exit(code)`, or die from an uncaught exception. -/
inductive ExitKind where
  | normal
  | exitCode (code : Nat)
  | uncaughtException (msg : String)
deriving DecidableEq

/-- Observable events of one iteration of `main`'s loop:
which commands were handed to `run_commands` (in order), whether a
per-iteration log file was written, whether `git add`/`git commit` was
invoked and with which `-m` argument, and whether the stop message
("No changes proposed by model.") was printed. -/
structure IterEvents where
  commandsRun : List (List Char)
  logWritten : Bool
  committed : Bool
  commitMsgUsed : List Char
  printedNoChanges : Bool
deriving DecidableEq

/-- Result of running the loop: how the process ended, plus the events
of each iteration that actually started, in order. -/
structure LoopResult where
  exitKind : ExitKind
  events : List IterEvents
deriving DecidableEq

/-- Events of an iteration that died during patch application: nothing
ran, nothing was logged, nothing was committed. -/
def noActionEvents : IterEvents :=
  { commandsRun := [], logWritten := false, committed := false,
    commitMsgUsed := [], printedNoChanges := false }

/-- Events of the iteration that hits the `else` branch of `main`:
print "No changes proposed by model." and `break`. -/
def stopEvents : IterEvents :=
  { commandsRun := [], logWritten := false, committed := false,
    commitMsgUsed := [], printedNoChanges := true }

/-- The body of one iteration of `main` (lines 142-164 of
`src/main.py`), given the already-parsed reply and the result `next` of
the remaining iterations.  If `diff_text` is non-empty, `apply_patch`
runs first: `False` triggers `sys.exit(1)`, an exception propagates;
in both cases no commands run and no commit happens.  Otherwise, if
either a diff or commands were parsed, `run_commands` executes the
commands (when non-empty) and writes the log, then `git add .` and
`git commit -m commit_message` run with the parsed message verbatim,
and the loop continues; if both are empty the loop prints the stop
message and breaks.  `run_commands` catches every per-command
exception, so reaching the commit step never depends on command
outcomes. -/
def run_iter (commit_message diff_text : List Char)
    (commands : List (List Char)) (patchRun : ProcResult)
    (next : LoopResult) : LoopResult :=
  match (if diff_text.isEmpty then Except.ok true
         else apply_patch patchRun diff_text : Except String Bool) with
  | Except.error m =>
      { exitKind := ExitKind.uncaughtException m, events := [noActionEvents] }
  | Except.ok false =>
      { exitKind := ExitKind.exitCode 1, events := [noActionEvents] }
  | Except.ok true =>
      if diff_text.isEmpty && commands.isEmpty then
        { exitKind := ExitKind.normal, events := [stopEvents] }
      else
        { exitKind := next.exitKind,
          events :=
            { commandsRun := commands, logWritten := !commands.isEmpty,
              committed := true, commitMsgUsed := commit_message,
              printedNoChanges := false } :: next.events }

/-- `main`'s iteration loop over the scheduled iterations (one `IterEnv`
per round, `--max-iterations` many).  Parsing the reply never fails, so
every reached iteration proceeds to `run_iter`. -/
def run_loop : List IterEnv → LoopResult
  | [] => { exitKind := ExitKind.normal, events := [] }
  | env :: rest =>
      run_iter (parse_model_response env.reply).1
        (parse_model_response env.reply).2.1
        (parse_model_response env.reply).2.2
        env.patchRun (run_loop rest)

/-- Modelled from the spec (§6): one shell command per line under the
`COMMANDS:` header; the joiner used by `compose_grammar`. -/
def joinNL : List (List Char) → List Char
  | [] => []
  | [c] => c
  | c :: cs => c ++ '\n' :: joinNL cs

/-- Modelled from the spec (§6 response grammar / §8 round-trip
property): the composed response text
`COMMIT_MESSAGE:\n<msg>\nDIFF:\n<diff>\nCOMMANDS:\n<commands>`. -/
def compose_grammar (commitMessage diffText : List Char)
    (commands : List (List Char)) : List Char :=
  mCOMMIT ++ '\n' :: (commitMessage ++ '\n' ::
    (mDIFF ++ '\n' :: (diffText ++ '\n' ::
      (mCOMMANDS ++ '\n' :: joinNL commands))))

/-- `pat` occurs in `s` starting at index `i`. -/
def OccursAt (pat s : List Char) (i : Nat) : Prop :=
  ∃ v, s.drop i = pat ++ v

/-- No section marker occurs in `s` (hypothesis of the round-trip). -/
@[reducible] def noMarkerIn (s : List Char) : Prop :=
  findSub mCOMMIT s = none ∧ findSub mDIFF s = none ∧
    findSub mCOMMANDS s = none

/-- A command string that survives the round-trip unchanged: non-empty,
already stripped, free of line breaks and of section markers. -/
@[reducible] def cleanCommand (c : List Char) : Prop :=
  c ≠ [] ∧ strip c = c ∧ noMarkerIn c ∧ ∀ ch ∈ c, isLineBreak ch = false

theorem isPrefixOf_iff (p l : List Char) :
    p.isPrefixOf l = true ↔ ∃ v, l = p ++ v := by
  induction p generalizing l with
  | nil =>
      simp [List.isPrefixOf]
  | cons c p ih =>
      cases l with
      | nil => simp [List.isPrefixOf]
      | cons d l =>
          simp only [List.isPrefixOf, Bool.and_eq_true, beq_iff_eq, ih,
            List.cons_append, List.cons.injEq]
          constructor
          · rintro ⟨rfl, v, rfl⟩
            exact ⟨v, rfl, rfl⟩
          · rintro ⟨v, rfl, rfl⟩
            exact ⟨rfl, v, rfl⟩

theorem occursAt_nil (pat : List Char) (i : Nat) :
    OccursAt pat [] i ↔ pat = [] := by
  constructor
  · rintro ⟨v, hv⟩
    rw [List.drop_nil] at hv
    exact (List.append_eq_nil.mp hv.symm).1
  · rintro rfl
    exact ⟨[], by simp⟩

theorem occursAt_zero (pat s : List Char) :
    OccursAt pat s 0 ↔ pat.isPrefixOf s = true := by
  rw [isPrefixOf_iff]
  exact Iff.rfl

theorem occursAt_succ (pat : List Char) (c : Char) (r : List Char) (i : Nat) :
    OccursAt pat (c :: r) (i + 1) ↔ OccursAt pat r i := by
  unfold OccursAt
  rw [List.drop_succ_cons]

theorem occursAt_length (pat s : List Char) (i : Nat) (hne : pat ≠ [])
    (h : OccursAt pat s i) : i + pat.length ≤ s.length := by
  obtain ⟨v, hv⟩ := h
  have h1 := congrArg List.length hv
  rw [List.length_drop, List.length_append] at h1
  have h2 : 0 < pat.length := List.length_pos.mpr hne
  omega

theorem findSub_eq_none_iff (pat s : List Char) :
    findSub pat s = none ↔ ∀ i, ¬ OccursAt pat s i := by
  induction s with
  | nil =>
      by_cases hp : pat.isPrefixOf [] = true
      · simp only [findSub, if_pos hp]
        have : pat = [] := by simpa using (isPrefixOf_iff pat []).mp hp
        subst this
        simp only [reduceCtorEq, false_iff, not_forall, not_not]
        exact ⟨0, ⟨[], by simp⟩⟩
      · simp only [findSub, if_neg hp, true_iff]
        intro i hocc
        have : pat = [] := (occursAt_nil pat i).mp hocc
        subst this
        exact hp (by simp [List.isPrefixOf])
  | cons c r ih =>
      by_cases hp : pat.isPrefixOf (c :: r) = true
      · simp only [findSub, if_pos hp, reduceCtorEq, false_iff, not_forall,
          not_not]
        exact ⟨0, (occursAt_zero pat (c :: r)).mpr hp⟩
      · simp only [findSub, if_neg hp, Option.map_eq_none', ih]
        constructor
        · intro h i
          cases i with
          | zero =>
              rw [occursAt_zero]
              exact fun hc => hp hc
          | succ j =>
              rw [occursAt_succ]
              exact h j
        · intro h i
          have := h (i + 1)
          rwa [occursAt_succ] at this

theorem findSub_eq_some_iff (pat s : List Char) (i : Nat) :
    findSub pat s = some i ↔
      (OccursAt pat s i ∧ ∀ j, j < i → ¬ OccursAt pat s j) := by
  induction s generalizing i with
  | nil =>
      by_cases hp : pat.isPrefixOf [] = true
      · have hpat : pat = [] := by simpa using (isPrefixOf_iff pat []).mp hp
        subst hpat
        simp only [findSub, if_pos hp, Option.some.injEq]
        constructor
        · rintro rfl
          exact ⟨⟨[], by simp⟩, fun j hj => by omega⟩
        · rintro ⟨-, hmin⟩
          by_contra hne
          have h0 : (0 : Nat) < i := Nat.pos_of_ne_zero fun h => hne h.symm
          exact hmin 0 h0 ⟨[], by simp⟩
      · simp only [findSub, if_neg hp, reduceCtorEq, false_iff, not_and]
        intro hocc
        exfalso
        apply hp
        rw [(occursAt_nil pat i).mp hocc]
        simp [List.isPrefixOf]
  | cons c r ih =>
      by_cases hp : pat.isPrefixOf (c :: r) = true
      · simp only [findSub, if_pos hp, Option.some.injEq]
        constructor
        · rintro rfl
          exact ⟨(occursAt_zero pat (c :: r)).mpr hp, fun j hj => by omega⟩
        · rintro ⟨-, hmin⟩
          by_contra hne
          have h0 : (0 : Nat) < i := Nat.pos_of_ne_zero fun h => hne h.symm
          exact hmin 0 h0 ((occursAt_zero pat (c :: r)).mpr hp)
      · simp only [findSub, if_neg hp]
        constructor
        · intro h
          obtain ⟨k, hk, rfl⟩ := Option.map_eq_some'.mp h
          obtain ⟨hocc, hmin⟩ := (ih k).mp hk
          refine ⟨(occursAt_succ pat c r k).mpr hocc, ?_⟩
          intro j hj
          cases j with
          | zero =>
              rw [occursAt_zero]
              exact fun hc => hp hc
          | succ m =>
              rw [occursAt_succ]
              exact hmin m (by omega)
        · rintro ⟨hocc, hmin⟩
          cases i with
          | zero =>
              exact absurd ((occursAt_zero pat (c :: r)).mp hocc) hp
          | succ k =>
              have hk : findSub pat r = some k := by
                refine (ih k).mpr ⟨(occursAt_succ pat c r k).mp hocc, ?_⟩
                intro j hj
                have := hmin (j + 1) (by omega)
                rwa [occursAt_succ] at this
              rw [hk]
              rfl

theorem findSub_of_isPrefixOf (pat s : List Char)
    (h : pat.isPrefixOf s = true) : findSub pat s = some 0 := by
  cases s with
  | nil => simp [findSub, h]
  | cons c r => simp [findSub, h]

theorem occursAt_cons_pat (c : Char) (p s : List Char) (j : Nat)
    (h : OccursAt (c :: p) s j) :
    OccursAt p s (j + 1) ∧ OccursAt [c] s j := by
  obtain ⟨v, hv⟩ := h
  rw [List.cons_append] at hv
  constructor
  · refine ⟨v, ?_⟩
    have h1 : s.drop (j + 1) = (s.drop j).drop 1 := by
      rw [List.drop_drop]
    rw [h1, hv]
    rfl
  · exact ⟨p ++ v, by rw [hv]; rfl⟩

theorem occursAt_append_sep (pat a b : List Char) (j : Nat)
    (hnl : '\n' ∉ pat) (_hne : pat ≠ [])
    (h : OccursAt pat (a ++ '\n' :: b) j) :
    OccursAt pat a j ∨
      (a.length + 1 ≤ j ∧ OccursAt pat b (j - (a.length + 1))) := by
  obtain ⟨v, hv⟩ := h
  rw [List.drop_append_eq_append_drop] at hv
  rcases Nat.lt_or_ge j (a.length + 1) with hj | hj
  · have hz : j - a.length = 0 := by omega
    rw [hz, List.drop_zero] at hv
    rcases Nat.lt_or_ge (a.drop j).length pat.length with hlen' | hlen
    · exfalso
      have hd : (a.drop j).length ≤ pat.length := Nat.le_of_lt hlen'
      have htake : (pat ++ v).take (a.drop j).length =
          pat.take (a.drop j).length := List.take_append_of_le_length hd
      have hdrop : (pat ++ v).drop (a.drop j).length =
          pat.drop (a.drop j).length ++ v := by
        rw [List.drop_append_eq_append_drop]
        have : (a.drop j).length - pat.length = 0 := by omega
        rw [this, List.drop_zero]
      have hright : (a.drop j ++ '\n' :: b).drop (a.drop j).length =
          '\n' :: b := List.drop_left (a.drop j) ('\n' :: b)
      rw [hv] at hright
      have hcomb : pat.drop (a.drop j).length ++ v = '\n' :: b :=
        hdrop.symm.trans hright
      cases hpd : pat.drop (a.drop j).length with
      | nil =>
          have hlen0 := congrArg List.length hpd
          rw [List.length_drop] at hlen0
          simp only [List.length_nil] at hlen0
          omega
      | cons ch rest =>
          rw [hpd, List.cons_append] at hcomb
          have hch : ch = '\n' := (List.cons.injEq _ _ _ _).mp hcomb |>.1
          apply hnl
          have hmem : ch ∈ pat.drop (a.drop j).length := by
            rw [hpd]
            exact List.mem_cons_self ch rest
          have hmem2 := List.mem_append_right (pat.take (a.drop j).length) hmem
          rw [List.take_append_drop] at hmem2
          rw [hch] at hmem2
          exact hmem2
    · left
      have htake : (a.drop j ++ '\n' :: b).take pat.length =
          (a.drop j).take pat.length := List.take_append_of_le_length hlen
      have hpat : pat = (a.drop j).take pat.length := by
        have h2 : (pat ++ v).take pat.length = pat := List.take_left pat v
        rw [← htake, hv, h2]
      refine ⟨(a.drop j).drop pat.length, ?_⟩
      conv_lhs => rw [← List.take_append_drop pat.length (a.drop j)]
      rw [← hpat]
  · right
    refine ⟨hj, ?_⟩
    have ha : a.drop j = [] := List.drop_eq_nil_of_le (by omega)
    rw [ha, List.nil_append] at hv
    have h1 : j - a.length = (j - (a.length + 1)) + 1 := by omega
    rw [h1, List.drop_succ_cons] at hv
    exact ⟨v, hv⟩

theorem findSub_append_sep_none (pat a b : List Char)
    (hnl : '\n' ∉ pat) (hne : pat ≠ [])
    (ha : findSub pat a = none) (hb : findSub pat b = none) :
    findSub pat (a ++ '\n' :: b) = none := by
  rw [findSub_eq_none_iff] at ha hb ⊢
  intro j hocc
  rcases occursAt_append_sep pat a b j hnl hne hocc with h | ⟨-, h⟩
  · exact ha j h
  · exact hb _ h

theorem findSub_append_sep (pat a b : List Char) (k : Nat)
    (hnl : '\n' ∉ pat) (hne : pat ≠ [])
    (ha : findSub pat a = none) (hb : findSub pat b = some k) :
    findSub pat (a ++ '\n' :: b) = some (a.length + 1 + k) := by
  rw [findSub_eq_none_iff] at ha
  obtain ⟨hocc, hmin⟩ := (findSub_eq_some_iff pat b k).mp hb
  rw [findSub_eq_some_iff]
  constructor
  · obtain ⟨v, hv⟩ := hocc
    refine ⟨v, ?_⟩
    rw [List.drop_append_eq_append_drop]
    have h1 : a.drop (a.length + 1 + k) = [] :=
      List.drop_eq_nil_of_le (by omega)
    have h2 : a.length + 1 + k - a.length = k + 1 := by omega
    rw [h1, h2, List.nil_append, List.drop_succ_cons, hv]
  · intro j hj hocc'
    rcases occursAt_append_sep pat a b j hnl hne hocc' with h | ⟨hge, h⟩
    · have := occursAt_length pat a j hne h
      obtain ⟨v, hv⟩ := h
      exact ha j ⟨v, hv⟩
    · exact hmin _ (by omega) h

theorem findSub_nl_marker (mk a b : List Char)
    (hnl : '\n' ∉ mk) (hne : mk ≠ [])
    (ha : findSub mk a = none) (hb : mk.isPrefixOf b = true) :
    findSub ('\n' :: mk) (a ++ '\n' :: b) = some a.length := by
  rw [findSub_eq_some_iff]
  constructor
  · obtain ⟨v, hv⟩ := (isPrefixOf_iff mk b).mp hb
    refine ⟨v, ?_⟩
    rw [List.drop_append_eq_append_drop]
    have h1 : a.drop a.length = [] := List.drop_eq_nil_of_le (Nat.le_refl _)
    have h2 : a.length - a.length = 0 := by omega
    rw [h1, h2, List.drop_zero, List.nil_append, hv]
    rfl
  · intro j hj hocc
    have hshift := (occursAt_cons_pat '\n' mk (a ++ '\n' :: b) j hocc).1
    rcases occursAt_append_sep mk a b (j + 1) hnl hne hshift with h | ⟨hge, -⟩
    · rw [findSub_eq_none_iff] at ha
      exact ha (j + 1) h
    · omega

theorem findSub_nl_marker_none (mk b : List Char)
    (hnl : '\n' ∉ mk) (hne : mk ≠ [])
    (hb : findSub mk b = none) :
    findSub ('\n' :: mk) (mk ++ '\n' :: b) = none := by
  rw [findSub_eq_none_iff]
  intro j hocc
  have hshift := (occursAt_cons_pat '\n' mk (mk ++ '\n' :: b) j hocc).1
  rcases occursAt_append_sep mk mk b (j + 1) hnl hne hshift with h | ⟨-, h⟩
  · have := occursAt_length mk mk (j + 1) hne h
    omega
  · rw [findSub_eq_none_iff] at hb
    exact hb _ h

theorem strip_length_le_dropWhile (s : List Char) :
    (strip s).length ≤ (s.dropWhile isSpace).length := by
  unfold strip
  rw [List.length_reverse]
  calc ((s.dropWhile isSpace).reverse.dropWhile isSpace).length
      ≤ (s.dropWhile isSpace).reverse.length :=
        (List.dropWhile_sublist isSpace).length_le
    _ = (s.dropWhile isSpace).length := List.length_reverse _

theorem strip_head_not_space (c : Char) (r : List Char)
    (h : strip (c :: r) = c :: r) : isSpace c = false := by
  by_contra hsp
  rw [Bool.not_eq_false] at hsp
  have h1 : (c :: r).dropWhile isSpace = r.dropWhile isSpace :=
    List.dropWhile_cons_of_pos hsp
  have h2 := strip_length_le_dropWhile (c :: r)
  have h3 : (r.dropWhile isSpace).length ≤ r.length :=
    (List.dropWhile_sublist isSpace).length_le
  have h4 := congrArg List.length h
  rw [List.length_cons] at h4
  rw [h1] at h2
  omega

theorem findSub_none_drop (pat t : List Char) (w : Nat)
    (h : findSub pat t = none) : findSub pat (t.drop w) = none := by
  rw [findSub_eq_none_iff] at h ⊢
  intro j hocc
  obtain ⟨v, hv⟩ := hocc
  rw [List.drop_drop] at hv
  exact h (w + j) ⟨v, hv⟩

theorem extractField_of_findSub_none (t endMarker : List Char)
    (h : findSub endMarker t = none) : extractField t endMarker = [] := by
  have h1 : findSub endMarker (t.drop (t.takeWhile isSpace).length) = none :=
    findSub_none_drop endMarker t _ h
  simp [extractField, findFrom, h1]

theorem findSub_joinNL_none (pat : List Char) (cmds : List (List Char))
    (hnl : '\n' ∉ pat) (hne : pat ≠ [])
    (hall : ∀ c ∈ cmds, findSub pat c = none) :
    findSub pat (joinNL cmds) = none := by
  induction cmds with
  | nil =>
      rw [findSub_eq_none_iff]
      intro j hocc
      exact hne ((occursAt_nil pat j).mp (by rwa [joinNL] at hocc))
  | cons c cs ih =>
      cases cs with
      | nil =>
          rw [joinNL]
          exact hall c (List.mem_cons_self c [])
      | cons c' cs' =>
          have hj : joinNL (c :: c' :: cs') = c ++ '\n' :: joinNL (c' :: cs') :=
            rfl
          rw [hj]
          exact findSub_append_sep_none pat c (joinNL (c' :: cs')) hnl hne
            (hall c (List.mem_cons_self c _))
            (ih fun d hd => hall d (List.mem_cons_of_mem c hd))

theorem splitlinesAux_sepFree (c acc : List Char)
    (h : ∀ ch ∈ c, isLineBreak ch = false) :
    splitlinesAux c acc =
      if acc.isEmpty && c.isEmpty then [] else [acc.reverse ++ c] := by
  induction c generalizing acc with
  | nil =>
      simp [splitlinesAux]
  | cons ch r ih =>
      have hch : isLineBreak ch = false := h ch (List.mem_cons_self ch r)
      rw [splitlinesAux, if_neg (by simp [hch])]
      rw [ih (ch :: acc) fun x hx => h x (List.mem_cons_of_mem ch hx)]
      simp

theorem splitlinesAux_line_append (c z acc : List Char)
    (h : ∀ ch ∈ c, isLineBreak ch = false) :
    splitlinesAux (c ++ '\n' :: z) acc =
      (acc.reverse ++ c) :: splitlinesAux z [] := by
  induction c generalizing acc with
  | nil =>
      rw [List.nil_append, splitlinesAux, if_pos (by decide)]
      simp
  | cons ch r ih =>
      have hch : isLineBreak ch = false := h ch (List.mem_cons_self ch r)
      rw [List.cons_append, splitlinesAux, if_neg (by simp [hch])]
      rw [ih (ch :: acc) fun x hx => h x (List.mem_cons_of_mem ch hx)]
      simp

theorem splitlinesPy_joinNL (cmds : List (List Char))
    (h : ∀ c ∈ cmds, c ≠ [] ∧ ∀ ch ∈ c, isLineBreak ch = false) :
    splitlinesPy (joinNL cmds) = cmds := by
  induction cmds with
  | nil => rfl
  | cons c cs ih =>
      cases cs with
      | nil =>
          obtain ⟨hne, hsep⟩ := h c (List.mem_cons_self c [])
          rw [joinNL, splitlinesPy, splitlinesAux_sepFree c [] hsep]
          rw [if_neg (by simp [hne])]
          simp
      | cons c' cs' =>
          obtain ⟨hne, hsep⟩ := h c (List.mem_cons_self c _)
          have hj : joinNL (c :: c' :: cs') = c ++ '\n' :: joinNL (c' :: cs') :=
            rfl
          rw [hj, splitlinesPy, splitlinesAux_line_append c _ [] hsep]
          rw [List.reverse_nil, List.nil_append]
          have := ih fun d hd => h d (List.mem_cons_of_mem c hd)
          rw [splitlinesPy] at this
          rw [this]

theorem extractField_section (x mk rest : List Char)
    (hx1 : strip x = x) (hx2 : findSub mk x = none)
    (hnl : '\n' ∉ mk) (hne : mk ≠ [])
    (hhead : ∀ c ∈ mk.take 1, isSpace c = false)
    (hrest : findSub mk rest = none) :
    extractField ('\n' :: (x ++ '\n' :: (mk ++ '\n' :: rest))) ('\n' :: mk)
      = x := by
  cases x with
  | nil =>
      obtain ⟨d, mk', rfl⟩ : ∃ d mk', mk = d :: mk' := by
        cases mk with
        | nil => exact absurd rfl hne
        | cons d mk' => exact ⟨d, mk', rfl⟩
      have hd : isSpace d = false := hhead d (by simp)
      have hw : (('\n' :: ([] ++ '\n' :: ((d :: mk') ++ '\n' :: rest))).takeWhile
          isSpace) = ['\n', '\n'] := by
        rw [List.nil_append, List.cons_append]
        rw [List.takeWhile_cons_of_pos (by decide),
          List.takeWhile_cons_of_pos (by decide),
          List.takeWhile_cons_of_neg (by simp [hd])]
      simp only [extractField, hw]
      have hdrop : ('\n' :: ([] ++ '\n' :: ((d :: mk') ++ '\n' :: rest))).drop
          (['\n', '\n'] : List Char).length = (d :: mk') ++ '\n' :: rest := by
        simp
      simp only [findFrom, hdrop]
      rw [findSub_nl_marker_none (d :: mk') rest hnl hne hrest]
      rfl
  | cons xc xr =>
      have hxc : isSpace xc = false := strip_head_not_space xc xr hx1
      have hw : (('\n' :: ((xc :: xr) ++ '\n' :: (mk ++ '\n' :: rest))).takeWhile
          isSpace) = ['\n'] := by
        rw [List.cons_append]
        rw [List.takeWhile_cons_of_pos (by decide),
          List.takeWhile_cons_of_neg (by simp [hxc])]
      simp only [extractField, hw]
      have hdrop : ('\n' :: ((xc :: xr) ++ '\n' :: (mk ++ '\n' :: rest))).drop
          (['\n'] : List Char).length = (xc :: xr) ++ '\n' :: (mk ++ '\n' :: rest) := by
        simp
      simp only [findFrom, hdrop]
      have hfind : findSub ('\n' :: mk)
          ((xc :: xr) ++ '\n' :: (mk ++ '\n' :: rest)) =
          some (xc :: xr).length :=
        findSub_nl_marker mk (xc :: xr) (mk ++ '\n' :: rest) hnl hne hx2
          ((isPrefixOf_iff mk (mk ++ '\n' :: rest)).mpr ⟨'\n' :: rest, rfl⟩)
      rw [hfind]
      simp only [Option.map_some']
      have harith : (xc :: xr).length + (['\n'] : List Char).length -
          (['\n'] : List Char).length = (xc :: xr).length := by
        simp
      rw [harith]
      rw [List.take_left (xc :: xr) ('\n' :: (mk ++ '\n' :: rest))]
      exact hx1

theorem drop_append_cons (a b : List Char) (k : Nat) :
    (a ++ '\n' :: b).drop (a.length + 1 + k) = b.drop k := by
  rw [List.drop_append_eq_append_drop]
  have h1 : a.drop (a.length + 1 + k) = [] :=
    List.drop_eq_nil_of_le (by omega)
  have h2 : a.length + 1 + k - a.length = k + 1 := by omega
  rw [h1, h2, List.nil_append, List.drop_succ_cons]

theorem roundtrip_commit (msg diff : List Char) (cmds : List (List Char))
    (hm2 : strip msg = msg) (hmD : findSub mDIFF msg = none)
    (hdD : findSub mDIFF diff = none)
    (hcD : ∀ c ∈ cmds, findSub mDIFF c = none) :
    (parse_model_response (compose_grammar msg diff cmds)).1 = msg := by
  have h0 : findSub mCOMMIT (compose_grammar msg diff cmds) = some 0 :=
    findSub_of_isPrefixOf _ _
      ((isPrefixOf_iff _ _).mpr ⟨_, rfl⟩)
  simp only [parse_model_response, h0]
  have hdrop : (compose_grammar msg diff cmds).drop (0 + mCOMMIT.length) =
      '\n' :: (msg ++ '\n' :: (mDIFF ++ '\n' :: (diff ++ '\n' ::
        (mCOMMANDS ++ '\n' :: joinNL cmds)))) := by
    rw [Nat.zero_add, compose_grammar]
    exact List.drop_left mCOMMIT _
  rw [hdrop]
  have hrest : findSub mDIFF (diff ++ '\n' ::
      (mCOMMANDS ++ '\n' :: joinNL cmds)) = none :=
    findSub_append_sep_none mDIFF diff _ (by decide) (by decide) hdD
      (findSub_append_sep_none mDIFF mCOMMANDS _ (by decide) (by decide)
        (by decide)
        (findSub_joinNL_none mDIFF cmds (by decide) (by decide) hcD))
  exact extractField_section msg mDIFF _ hm2 hmD (by decide) (by decide)
    (by decide) hrest

theorem roundtrip_diff (msg diff : List Char) (cmds : List (List Char))
    (hmD : findSub mDIFF msg = none)
    (hd2 : strip diff = diff) (hdC : findSub mCOMMANDS diff = none)
    (hcC : ∀ c ∈ cmds, findSub mCOMMANDS c = none) :
    (parse_model_response (compose_grammar msg diff cmds)).2.1 = diff := by
  have hinner : findSub mDIFF (msg ++ '\n' :: (mDIFF ++ '\n' ::
      (diff ++ '\n' :: (mCOMMANDS ++ '\n' :: joinNL cmds)))) =
      some (msg.length + 1 + 0) :=
    findSub_append_sep mDIFF msg _ 0 (by decide) (by decide) hmD
      (findSub_of_isPrefixOf _ _ ((isPrefixOf_iff _ _).mpr ⟨_, rfl⟩))
  have hD : findSub mDIFF (compose_grammar msg diff cmds) =
      some (mCOMMIT.length + 1 + (msg.length + 1 + 0)) :=
    findSub_append_sep mDIFF mCOMMIT _ _ (by decide) (by decide) (by decide)
      hinner
  simp only [parse_model_response, hD]
  have e1 : mCOMMIT.length + 1 + (msg.length + 1 + 0) + mDIFF.length =
      mCOMMIT.length + 1 + (msg.length + 1 + mDIFF.length) := by omega
  have hdrop : (compose_grammar msg diff cmds).drop
      (mCOMMIT.length + 1 + (msg.length + 1 + 0) + mDIFF.length) =
      '\n' :: (diff ++ '\n' :: (mCOMMANDS ++ '\n' :: joinNL cmds)) := by
    rw [e1, compose_grammar, drop_append_cons mCOMMIT _ _,
      drop_append_cons msg _ _]
    exact List.drop_left mDIFF _
  rw [hdrop]
  have hrest : findSub mCOMMANDS (joinNL cmds) = none :=
    findSub_joinNL_none mCOMMANDS cmds (by decide) (by decide) hcC
  exact extractField_section diff mCOMMANDS _ hd2 hdC (by decide) (by decide)
    (by decide) hrest

theorem roundtrip_commands (msg diff : List Char) (cmds : List (List Char))
    (hmC : findSub mCOMMANDS msg = none)
    (hdC : findSub mCOMMANDS diff = none)
    (hclean : ∀ c ∈ cmds, c ≠ [] ∧ strip c = c ∧
      ∀ ch ∈ c, isLineBreak ch = false) :
    (parse_model_response (compose_grammar msg diff cmds)).2.2 = cmds := by
  have hinner3 : findSub mCOMMANDS (diff ++ '\n' ::
      (mCOMMANDS ++ '\n' :: joinNL cmds)) = some (diff.length + 1 + 0) :=
    findSub_append_sep mCOMMANDS diff _ 0 (by decide) (by decide) hdC
      (findSub_of_isPrefixOf _ _ ((isPrefixOf_iff _ _).mpr ⟨_, rfl⟩))
  have hinner2 : findSub mCOMMANDS (mDIFF ++ '\n' :: (diff ++ '\n' ::
      (mCOMMANDS ++ '\n' :: joinNL cmds))) =
      some (mDIFF.length + 1 + (diff.length + 1 + 0)) :=
    findSub_append_sep mCOMMANDS mDIFF _ _ (by decide) (by decide) (by decide)
      hinner3
  have hinner1 : findSub mCOMMANDS (msg ++ '\n' :: (mDIFF ++ '\n' ::
      (diff ++ '\n' :: (mCOMMANDS ++ '\n' :: joinNL cmds)))) =
      some (msg.length + 1 + (mDIFF.length + 1 + (diff.length + 1 + 0))) :=
    findSub_append_sep mCOMMANDS msg _ _ (by decide) (by decide) hmC hinner2
  have hC : findSub mCOMMANDS (compose_grammar msg diff cmds) =
      some (mCOMMIT.length + 1 + (msg.length + 1 +
        (mDIFF.length + 1 + (diff.length + 1 + 0)))) :=
    findSub_append_sep mCOMMANDS mCOMMIT _ _ (by decide) (by decide)
      (by decide) hinner1
  simp only [parse_model_response, hC]
  have e2 : mCOMMIT.length + 1 + (msg.length + 1 +
      (mDIFF.length + 1 + (diff.length + 1 + 0))) + mCOMMANDS.length =
      mCOMMIT.length + 1 + (msg.length + 1 +
        (mDIFF.length + 1 + (diff.length + 1 + mCOMMANDS.length))) := by
    omega
  have hdrop : (compose_grammar msg diff cmds).drop
      (mCOMMIT.length + 1 + (msg.length + 1 +
        (mDIFF.length + 1 + (diff.length + 1 + 0))) + mCOMMANDS.length) =
      '\n' :: joinNL cmds := by
    rw [e2, compose_grammar, drop_append_cons mCOMMIT _ _,
      drop_append_cons msg _ _, drop_append_cons mDIFF _ _,
      drop_append_cons diff _ _]
    exact List.drop_left mCOMMANDS _
  rw [hdrop]
  cases cmds with
  | nil => rfl
  | cons c0 cs =>
      obtain ⟨hne0, hstr0, hsep0⟩ := hclean c0 (List.mem_cons_self c0 cs)
      obtain ⟨ch, c0', rfl⟩ : ∃ ch c0', c0 = ch :: c0' := by
        cases c0 with
        | nil => exact absurd rfl hne0
        | cons ch c0' => exact ⟨ch, c0', rfl⟩
      have hchsp : isSpace ch = false := strip_head_not_space ch c0' hstr0
      obtain ⟨r0, hr0⟩ : ∃ r0, joinNL ((ch :: c0') :: cs) =
          (ch :: c0') ++ r0 := by
        cases cs with
        | nil => exact ⟨[], by rw [joinNL, List.append_nil]⟩
        | cons c1 cs' => exact ⟨'\n' :: joinNL (c1 :: cs'), rfl⟩
      have hw : (('\n' :: joinNL ((ch :: c0') :: cs)).takeWhile isSpace) =
          ['\n'] := by
        rw [List.takeWhile_cons_of_pos (by decide), hr0, List.cons_append,
          List.takeWhile_cons_of_neg (by simp [hchsp])]
      have hbody : ('\n' :: joinNL ((ch :: c0') :: cs)).drop
          ((['\n'] : List Char).length) = joinNL ((ch :: c0') :: cs) := by
        simp
      simp only [hw, hbody]
      rw [splitlinesPy_joinNL _ fun c hc => ⟨(hclean c hc).1, (hclean c hc).2.2⟩]
      rw [List.map_congr_left fun c hc => (hclean c hc).2.1]
      rw [List.map_id']
      rw [List.filter_eq_self.mpr]
      intro c hc
      simp [List.isEmpty_eq_false.mpr (hclean c hc).1]

/-- Claim C1: `parse_model_response` is total (it is a Lean function, so
it terminates and raises nothing, by construction) and returns a triple;
whenever a section marker does not occur in the input, the corresponding
field is the empty string (commit message, diff) or the empty list
(commands). -/
theorem parse_never_fails_absent_sections (s : List Char) :
    (findSub mCOMMIT s = none → (parse_model_response s).1 = [])
    ∧ (findSub mDIFF s = none → (parse_model_response s).2.1 = [])
    ∧ (findSub mCOMMANDS s = none → (parse_model_response s).2.2 = []) := by
  refine ⟨fun h => ?_, fun h => ?_, fun h => ?_⟩
  · simp [parse_model_response, h]
  · simp [parse_model_response, h]
  · simp [parse_model_response, h]

/-- Witness for C1 at the concrete marker-free input `"hello world"`. -/
theorem parse_never_fails_absent_sections_witness :
    (parse_model_response "hello world".toList).1 = []
    ∧ (parse_model_response "hello world".toList).2.1 = []
    ∧ (parse_model_response "hello world".toList).2.2 = [] := by
  have h := parse_never_fails_absent_sections "hello world".toList
  exact ⟨h.1 (by decide), h.2.1 (by decide), h.2.2 (by decide)⟩

/-- Claim C10: the first two capture groups are terminated only by the
next marker at the start of a line.  If `COMMIT_MESSAGE:` occurs but no
later line begins with `DIFF:` (no occurrence of `"\nDIFF:"` after the
marker), the commit message is empty, not the trailing text; likewise
for `DIFF:` without a later line beginning with `COMMANDS:`. -/
theorem field_terminators_require_line_start (s : List Char) :
    (∀ i, findSub mCOMMIT s = some i →
        findSub nlDIFF (s.drop (i + mCOMMIT.length)) = none →
        (parse_model_response s).1 = [])
    ∧ (∀ i, findSub mDIFF s = some i →
        findSub nlCOMMANDS (s.drop (i + mDIFF.length)) = none →
        (parse_model_response s).2.1 = []) := by
  constructor
  · intro i hi hnone
    simp [parse_model_response, hi, extractField_of_findSub_none _ _ hnone]
  · intro i hi hnone
    simp [parse_model_response, hi, extractField_of_findSub_none _ _ hnone]

/-- Witness for C10: both markers are present in
`"COMMIT_MESSAGE: a DIFF: b COMMANDS"` but neither terminator starts a
line, and both fields parse to the empty string. -/
theorem field_terminators_require_line_start_witness :
    (parse_model_response "COMMIT_MESSAGE: a DIFF: b COMMANDS".toList).1 = []
    ∧ (parse_model_response
        "COMMIT_MESSAGE: a DIFF: b COMMANDS".toList).2.1 = [] := by
  have h := field_terminators_require_line_start
    "COMMIT_MESSAGE: a DIFF: b COMMANDS".toList
  exact ⟨h.1 0 (by decide) (by decide), h.2 18 (by decide) (by decide)⟩

/-- Counterexample to claim C4 as stated: when launching the `patch`
tool fails (`subprocess.run` raises an `OSError`, e.g. the binary is
missing), `apply_patch` does not return `False` — the exception
propagates, because only `CalledProcessError` is caught. -/
theorem apply_patch_launch_failure_raises :
    apply_patch (ProcResult.raised "No such file or directory: patch")
        "--- a\n+++ b\n".toList =
      Except.error "No such file or directory: patch"
    ∧ apply_patch (ProcResult.raised "No such file or directory: patch")
        "--- a\n+++ b\n".toList ≠ Except.ok false := by
  refine ⟨rfl, ?_⟩
  intro hcontra
  exact Except.noConfusion hcontra

/-- Claim C4, amended: `apply_patch` returns `True` for every empty or
whitespace-only diff without consulting the patch process (the result
does not depend on `patchRun`); for any other diff it returns `True`
exactly when the tool exits with status zero and `False` (printing the
diagnostic) on any non-zero status — but a failure to launch the tool
propagates as an exception instead of returning `False`. -/
theorem apply_patch_exit_status_amended (r : ProcResult) (d : List Char) :
    (strip d = [] → apply_patch r d = Except.ok true)
    ∧ (strip d ≠ [] → ∀ rc out err, r = ProcResult.exited rc out err →
        apply_patch r d =
          (if rc = 0 then Except.ok true else Except.ok false))
    ∧ (strip d ≠ [] → ∀ m, r = ProcResult.raised m →
        apply_patch r d = Except.error m) := by
  refine ⟨fun h => ?_, fun h rc out err hr => ?_, fun h m hr => ?_⟩
  · simp [apply_patch, h]
  · subst hr
    simp [apply_patch, h]
  · subst hr
    simp [apply_patch, h]

/-- Witness for the amended C4 on concrete inputs: whitespace-only diff,
zero exit, non-zero exit, launch failure. -/
theorem apply_patch_exit_status_amended_witness :
    apply_patch (ProcResult.exited 7 "" "") "   ".toList = Except.ok true
    ∧ apply_patch (ProcResult.exited 0 "ok" "") "--- x\n".toList =
        Except.ok true
    ∧ apply_patch (ProcResult.exited 2 "" "rej") "--- x\n".toList =
        Except.ok false
    ∧ apply_patch (ProcResult.raised "boom") "--- x\n".toList =
        Except.error "boom" := by
  refine ⟨?_, ?_, ?_, ?_⟩
  · exact (apply_patch_exit_status_amended (ProcResult.exited 7 "" "")
      "   ".toList).1 (by decide)
  · have h := (apply_patch_exit_status_amended (ProcResult.exited 0 "ok" "")
      "--- x\n".toList).2.1 (by decide) 0 "ok" "" rfl
    rw [h]
    rfl
  · have h := (apply_patch_exit_status_amended (ProcResult.exited 2 "" "rej")
      "--- x\n".toList).2.1 (by decide) 2 "" "rej" rfl
    rw [h]
    rfl
  · exact (apply_patch_exit_status_amended (ProcResult.raised "boom")
      "--- x\n".toList).2.2 (by decide) "boom" rfl

theorem run_commands_log_eq_map (execs : List (List Char × ProcResult)) :
    run_commands_log execs = execs.map entryOf := by
  induction execs with
  | nil => rfl
  | cons e rest ih =>
      obtain ⟨cmd, out⟩ := e
      cases out with
      | exited rc o er => simp [run_commands_log, entryOf, ih]
      | raised m => simp [run_commands_log, entryOf, ih]

/-- Claim C6: `run_commands` logs one entry per command, in exactly the
input order; a command whose launch raised is recorded with the `error`
variant instead of the returncode/stdout/stderr fields, and no launch
failure or non-zero exit of an earlier command suppresses a later
command's execution and log entry (every index of the input shows up at
the same index of the log). -/
theorem run_commands_order_and_error_isolation
    (execs : List (List Char × ProcResult)) :
    (run_commands_log execs).length = execs.length
    ∧ (∀ i : Nat, ((run_commands_log execs)[i]?).map CmdLogEntry.command =
        (execs[i]?).map Prod.fst)
    ∧ (∀ (i : Nat) (cmd : List Char) (m : String),
        execs[i]? = some (cmd, ProcResult.raised m) →
        (run_commands_log execs)[i]? =
          some (CmdLogEntry.errored cmd m))
    ∧ (∀ (i : Nat) (cmd : List Char) (rc : Int) (out err : String),
        execs[i]? = some (cmd, ProcResult.exited rc out err) →
        (run_commands_log execs)[i]? =
          some (CmdLogEntry.result cmd rc out err)) := by
  refine ⟨?_, ?_, ?_, ?_⟩
  · rw [run_commands_log_eq_map, List.length_map]
  · intro i
    rw [run_commands_log_eq_map, List.getElem?_map]
    cases h : execs[i]? with
    | none => rfl
    | some e =>
        obtain ⟨cmd, out⟩ := e
        cases out with
        | exited rc o er => rfl
        | raised m => rfl
  · intro i cmd m h
    rw [run_commands_log_eq_map, List.getElem?_map, h]
    rfl
  · intro i cmd rc out err h
    rw [run_commands_log_eq_map, List.getElem?_map, h]
    rfl

/-- Witness for C6: a failing command (`false`, exit 1) is followed by a
command whose launch raised, and a third command still runs and is
logged at its position. -/
theorem run_commands_order_and_error_isolation_witness :
    (run_commands_log [("false".toList, ProcResult.exited 1 "" ""),
        ("oops".toList, ProcResult.raised "boom"),
        ("echo ok".toList, ProcResult.exited 0 "ok\n" "")]).length = 3
    ∧ (run_commands_log [("false".toList, ProcResult.exited 1 "" ""),
        ("oops".toList, ProcResult.raised "boom"),
        ("echo ok".toList, ProcResult.exited 0 "ok\n" "")])[1]? =
      some (CmdLogEntry.errored "oops".toList "boom")
    ∧ (run_commands_log [("false".toList, ProcResult.exited 1 "" ""),
        ("oops".toList, ProcResult.raised "boom"),
        ("echo ok".toList, ProcResult.exited 0 "ok\n" "")])[2]? =
      some (CmdLogEntry.result "echo ok".toList 0 "ok\n" "") := by
  have h := run_commands_order_and_error_isolation
    [("false".toList, ProcResult.exited 1 "" ""),
     ("oops".toList, ProcResult.raised "boom"),
     ("echo ok".toList, ProcResult.exited 0 "ok\n" "")]
  refine ⟨?_, ?_, ?_⟩
  · rw [h.1]
    rfl
  · exact h.2.2.1 1 "oops".toList "boom" (by decide)
  · exact h.2.2.2 2 "echo ok".toList 0 "ok\n" "" (by decide)

/-- Claim C7: a path with a `.git` component, at any depth, never
appears among the keys of the snapshot `gather_files` returns. -/
theorem gather_files_excludes_git (fs : List FsEntry) (p : List String)
    (h : ".git" ∈ p) : p ∉ (gather_files fs).map Prod.fst := by
  induction fs with
  | nil => simp [gather_files]
  | cons e rest ih =>
      by_cases hg : ".git" ∈ e.parts
      · simpa [gather_files, hg] using ih
      · cases hr : e.readResult with
        | none => simpa [gather_files, hg, hr] using ih
        | some content =>
            simp only [gather_files, if_neg hg, hr, List.map_cons,
              List.mem_cons, not_or]
            exact ⟨fun hpe => hg (hpe ▸ h), ih⟩

/-- Witness for C7: a readable file under `.git` is excluded. -/
theorem gather_files_excludes_git_witness :
    [".git", "config"] ∉
      (gather_files [⟨["src", "main.py"], some "code"⟩,
        ⟨[".git", "config"], some "gitcfg"⟩]).map Prod.fst :=
  gather_files_excludes_git
    [⟨["src", "main.py"], some "code"⟩, ⟨[".git", "config"], some "gitcfg"⟩]
    [".git", "config"] (by decide)

/-- Claim C8: a file whose read raises is silently skipped — it never
aborts the snapshot, every other readable (non-`.git`) file still
appears with its content — and everything in the snapshot comes from a
file whose read succeeded (an entry whose read raised contributes
nothing). -/
theorem gather_files_skips_unreadable_keeps_readable (fs : List FsEntry) :
    (∀ e ∈ fs, ".git" ∉ e.parts → ∀ c, e.readResult = some c →
        (e.parts, c) ∈ gather_files fs)
    ∧ (∀ q ∈ gather_files fs, ∃ e ∈ fs, e.parts = q.1 ∧
        e.readResult = some q.2 ∧ ".git" ∉ e.parts) := by
  induction fs with
  | nil =>
      refine ⟨fun e he => absurd he (List.not_mem_nil e), fun q hq => ?_⟩
      simp [gather_files] at hq
  | cons e rest ih =>
      constructor
      · intro f hf hgit c hc
        rcases List.mem_cons.mp hf with rfl | hf'
        · simp only [gather_files, if_neg hgit, hc]
          exact List.mem_cons_self _ _
        · have hmem := ih.1 f hf' hgit c hc
          by_cases hg : ".git" ∈ e.parts
          · simp only [gather_files, if_pos hg]
            exact hmem
          · cases hr : e.readResult with
            | none =>
                simp only [gather_files, if_neg hg, hr]
                exact hmem
            | some c0 =>
                simp only [gather_files, if_neg hg, hr]
                exact List.mem_cons_of_mem _ hmem
      · intro q hq
        by_cases hg : ".git" ∈ e.parts
        · simp only [gather_files, if_pos hg] at hq
          obtain ⟨f, hf, hs⟩ := ih.2 q hq
          exact ⟨f, List.mem_cons_of_mem _ hf, hs⟩
        · cases hr : e.readResult with
          | none =>
              simp only [gather_files, if_neg hg, hr] at hq
              obtain ⟨f, hf, hs⟩ := ih.2 q hq
              exact ⟨f, List.mem_cons_of_mem _ hf, hs⟩
          | some c0 =>
              simp only [gather_files, if_neg hg, hr] at hq
              rcases List.mem_cons.mp hq with rfl | hq'
              · exact ⟨e, List.mem_cons_self _ _, rfl, hr, hg⟩
              · obtain ⟨f, hf, hs⟩ := ih.2 q hq'
                exact ⟨f, List.mem_cons_of_mem _ hf, hs⟩

/-- Claim C2: in any iteration whose parsed diff is non-empty and where
`apply_patch` returns `False`, the whole run stops with `sys.exit(1)`
(non-zero status): no commit happens in that iteration (whatever commit
message was parsed), no command of that iteration runs, no log file is
written, and no later iteration starts. -/
theorem patch_failure_aborts_run (env : IterEnv) (rest : List IterEnv)
    (hdiff : (parse_model_response env.reply).2.1 ≠ [])
    (hfail : apply_patch env.patchRun (parse_model_response env.reply).2.1 =
      Except.ok false) :
    run_loop (env :: rest) =
      { exitKind := ExitKind.exitCode 1, events := [noActionEvents] } := by
  have hne : (parse_model_response env.reply).2.1.isEmpty = false :=
    List.isEmpty_eq_false.mpr hdiff
  simp [run_loop, run_iter, hne, hfail]

/-- Witness for C2: a reply with a non-empty commit message and a diff
the patch tool rejects (exit status 1); a second scheduled iteration
never runs. -/
theorem patch_failure_aborts_run_witness :
    run_loop
      [{ reply :=
           "COMMIT_MESSAGE:\nfix stuff\nDIFF:\nbad diff\nCOMMANDS:\nls\n".toList,
         patchRun := ProcResult.exited 1 "" "patch failed" },
       { reply := "unreached".toList, patchRun := ProcResult.exited 0 "" "" }] =
      { exitKind := ExitKind.exitCode 1, events := [noActionEvents] } :=
  patch_failure_aborts_run
    { reply :=
        "COMMIT_MESSAGE:\nfix stuff\nDIFF:\nbad diff\nCOMMANDS:\nls\n".toList,
      patchRun := ProcResult.exited 1 "" "patch failed" }
    [{ reply := "unreached".toList, patchRun := ProcResult.exited 0 "" "" }]
    (by decide) rfl

/-- Claim C3: in any iteration whose parsed diff and command list are
both empty, the loop prints the stop message ("No changes proposed by
model."), breaks out of the whole iteration loop, commits nothing and
writes no command-output log; the process then ends normally. -/
theorem no_changes_stops_loop (env : IterEnv) (rest : List IterEnv)
    (hdiff : (parse_model_response env.reply).2.1 = [])
    (hcmds : (parse_model_response env.reply).2.2 = []) :
    run_loop (env :: rest) =
      { exitKind := ExitKind.normal, events := [stopEvents] } := by
  simp [run_loop, run_iter, hdiff, hcmds]

/-- Witness for C3: empty `DIFF:` and `COMMANDS:` sections stop the run
even though another iteration was scheduled and a commit message was
present. -/
theorem no_changes_stops_loop_witness :
    run_loop
      [{ reply := "COMMIT_MESSAGE:\nnothing to do\nDIFF:\nCOMMANDS:\n".toList,
         patchRun := ProcResult.exited 0 "" "" },
       { reply := "unreached".toList, patchRun := ProcResult.exited 0 "" "" }] =
      { exitKind := ExitKind.normal, events := [stopEvents] } :=
  no_changes_stops_loop
    { reply := "COMMIT_MESSAGE:\nnothing to do\nDIFF:\nCOMMANDS:\n".toList,
      patchRun := ProcResult.exited 0 "" "" }
    [{ reply := "unreached".toList, patchRun := ProcResult.exited 0 "" "" }]
    (by decide) (by decide)

/-- Counterexample to claim C9 as stated: with an empty parsed commit
message and a successfully applied diff, the commit is invoked with the
empty message itself (`commitMsgUsed = []`), not with any non-empty
placeholder — `main` passes `commit_message` to `git commit -m`
verbatim. -/
theorem commit_message_empty_passthrough :
    run_loop
      [{ reply := "COMMIT_MESSAGE:\nDIFF:\n--- a\n+++ b\nCOMMANDS:\n".toList,
         patchRun := ProcResult.exited 0 "" "" }] =
      { exitKind := ExitKind.normal,
        events := [{ commandsRun := [], logWritten := false,
                     committed := true, commitMsgUsed := [],
                     printedNoChanges := false }] } := by
  rfl

/-- Claim C9, amended: in any iteration where a diff or commands were
present (and the patch, if any, applied), `git add`/`git commit` are
invoked with exactly the parsed commit message — including the empty
string when the message section was empty; no placeholder is
substituted (and the exit status of `git commit` is not checked). -/
theorem commit_uses_parsed_message_amended (env : IterEnv)
    (rest : List IterEnv)
    (hsome : (parse_model_response env.reply).2.1 ≠ [] ∨
      (parse_model_response env.reply).2.2 ≠ [])
    (hpatch : (parse_model_response env.reply).2.1 ≠ [] →
      apply_patch env.patchRun (parse_model_response env.reply).2.1 =
        Except.ok true) :
    (run_loop (env :: rest)).events.head? =
      some { commandsRun := (parse_model_response env.reply).2.2,
             logWritten := !(parse_model_response env.reply).2.2.isEmpty,
             committed := true,
             commitMsgUsed := (parse_model_response env.reply).1,
             printedNoChanges := false } := by
  by_cases hd : (parse_model_response env.reply).2.1 = []
  · have hc : (parse_model_response env.reply).2.2 ≠ [] :=
      hsome.resolve_left fun hA => hA hd
    have hce : (parse_model_response env.reply).2.2.isEmpty = false :=
      List.isEmpty_eq_false.mpr hc
    simp [run_loop, run_iter, hd, hce]
  · have hde : (parse_model_response env.reply).2.1.isEmpty = false :=
      List.isEmpty_eq_false.mpr hd
    have hp := hpatch hd
    simp [run_loop, run_iter, hde, hp]

/-- Witness for the amended C9: a non-empty message is passed through
unchanged, commands are run and logged, and the commit happens. -/
theorem commit_uses_parsed_message_amended_witness :
    (run_loop
      [{ reply :=
           "COMMIT_MESSAGE:\nmsg here\nDIFF:\n--- a\nCOMMANDS:\nls\n".toList,
         patchRun := ProcResult.exited 0 "" "" }]).events.head? =
      some { commandsRun := ["ls".toList], logWritten := true,
             committed := true, commitMsgUsed := "msg here".toList,
             printedNoChanges := false } := by
  have h := commit_uses_parsed_message_amended
    { reply := "COMMIT_MESSAGE:\nmsg here\nDIFF:\n--- a\nCOMMANDS:\nls\n".toList,
      patchRun := ProcResult.exited 0 "" "" }
    [] (Or.inl (by decide)) (fun _ => rfl)
  rw [h]
  rfl

/-- Counterexample to claim C5 as stated: the round-trip already fails
for a commit message with leading whitespace (`" x"` comes back
stripped to `"x"`), and, independently, for an empty commit message
with a command line that begins with a section marker (`"DIFF: x"`),
which the commit-message group then captures.  Both inputs satisfy the
claim's hypotheses (no marker substring in message/diff, commands are
non-blank lines). -/
theorem roundtrip_fails_without_amended_conditions :
    (parse_model_response (compose_grammar " x".toList "d".toList
        ["ls".toList]) ≠
      (" x".toList, "d".toList, ["ls".toList]))
    ∧ (parse_model_response (compose_grammar [] "d".toList
        ["DIFF: x".toList]) ≠
      ([], "d".toList, ["DIFF: x".toList])) := by
  decide

/-- Claim C5, amended: parsing the composed grammar text returns exactly
`(commitMessage, diffText, commands)` when, in addition to the markers
not occurring in `commitMessage`/`diffText`, (a) `commitMessage` and
`diffText` equal their whitespace-stripped forms, and (b) every command
is a non-empty single line equal to its stripped form, containing no
line break and no substring matching a section marker. -/
theorem parse_compose_roundtrip_amended (msg diff : List Char)
    (cmds : List (List Char))
    (hm1 : noMarkerIn msg) (hm2 : strip msg = msg)
    (hd1 : noMarkerIn diff) (hd2 : strip diff = diff)
    (hc : ∀ c ∈ cmds, cleanCommand c) :
    parse_model_response (compose_grammar msg diff cmds) =
      (msg, diff, cmds) := by
  obtain ⟨-, hmD, hmC⟩ := hm1
  obtain ⟨-, hdD, hdC⟩ := hd1
  have h1 := roundtrip_commit msg diff cmds hm2 hmD hdD
    fun c hc' => ((hc c hc').2.2.1).2.1
  have h2 := roundtrip_diff msg diff cmds hmD hd2 hdC
    fun c hc' => ((hc c hc').2.2.1).2.2
  have h3 := roundtrip_commands msg diff cmds hmC hdC
    fun c hc' => ⟨(hc c hc').1, (hc c hc').2.1, (hc c hc').2.2.2⟩
  have hsplit : parse_model_response (compose_grammar msg diff cmds) =
      ((parse_model_response (compose_grammar msg diff cmds)).1,
       (parse_model_response (compose_grammar msg diff cmds)).2.1,
       (parse_model_response (compose_grammar msg diff cmds)).2.2) := rfl
  rw [hsplit, h1, h2, h3]

/-- Witness for the amended C5 at a concrete well-formed triple. -/
theorem parse_compose_roundtrip_amended_witness :
    parse_model_response (compose_grammar "fix the bug".toList
      "--- a".toList ["ls -l".toList, "make test".toList]) =
      ("fix the bug".toList, "--- a".toList,
       ["ls -l".toList, "make test".toList]) :=
  parse_compose_roundtrip_amended "fix the bug".toList "--- a".toList
    ["ls -l".toList, "make test".toList]
    (by decide) (by decide) (by decide) (by decide) (by decide)

/-- Witness for C8: with an unreadable file in the middle of the walk,
a readable file after it still appears in the snapshot. -/
theorem gather_files_skips_unreadable_keeps_readable_witness :
    (["ok2.txt"], "yo") ∈
      gather_files [⟨["ok.txt"], some "hi"⟩, ⟨["bad.bin"], none⟩,
        ⟨["ok2.txt"], some "yo"⟩] := by
  have h := (gather_files_skips_unreadable_keeps_readable
    [⟨["ok.txt"], some "hi"⟩, ⟨["bad.bin"], none⟩,
     ⟨["ok2.txt"], some "yo"⟩]).1
  exact h ⟨["ok2.txt"], some "yo"⟩ (by decide) (by decide) "yo" rfl

end AIDev
